import Mathlib

/-!
# A shallow embedding of `govarint.go`

The file embeds the group-varint codec of the `govarint` package:

* `U32GroupVarintEncoder` with `Flush`, `PutU32`, `Close`;
* `U32GroupVarintDecoder` with `getGroup` and `GetU32`;
* the `Base128Encoder` wrappers around `binary.PutUvarint`.

Go machine integers are modelled as `Nat` with an explicit `% 2 ^ w` where
the code performs wrapping arithmetic; byte sources (`io.ByteReader`) are
lists of read results, so end-of-data and hard I/O errors are explicit.
-/

set_option maxHeartbeats 1000000

namespace Govarint

/-- The outcome of one `ReadByte` call: a byte value, end of data (`io.EOF`),
or any other I/O error, identified by a numeric code. -/
inductive IOErr where
  | eof
  | other (code : Nat)
  deriving DecidableEq, Repr

instance {α β : Type} [DecidableEq α] [DecidableEq β] : DecidableEq (Except α β) :=
  fun x y =>
    match x, y with
    | Except.ok a, Except.ok b =>
      if h : a = b then isTrue (by rw [h]) else isFalse (by simp [h])
    | Except.error a, Except.error b =>
      if h : a = b then isTrue (by rw [h]) else isFalse (by simp [h])
    | Except.ok _, Except.error _ => isFalse (by simp)
    | Except.error _, Except.ok _ => isFalse (by simp)

/-- A byte source: the successive results an `io.ByteReader` hands out; an
exhausted list keeps signalling end of data. -/
abbrev Source := List (Except IOErr Nat)

/-- One `ReadByte` call on a source. -/
def readByte : Source → Except IOErr Nat × Source
  | [] => (Except.error IOErr.eof, [])
  | r :: rest => (r, rest)

/-- The bytes the `Flush` loop emits for a single value `x`: one byte
`byte(x >> shift)` for each shift in `{24, 16, 8, 0}` satisfying
`(x>>shift) != 0 || shift == 0` (govarint.go lines 53-64). -/
def slotBytes (x : Nat) : List Nat :=
  (([24, 16, 8, 0] : List Nat).filter (fun shift => x >>> shift != 0 || shift == 0)).map
    (fun shift => (x >>> shift) % 256)

/-- The size byte `b.temp[0]`, accumulated by
`b.temp[0] |= (size - 1) << (uint8(3-i) * 2)` over the four slots
(govarint.go line 67). -/
def controlByte (store : List Nat) : Nat :=
  store.enum.foldl
    (fun acc p => acc ||| (((slotBytes p.2).length - 1) <<< ((3 - p.1) * 2))) 0

/-- Encoder state: `index` counts buffered values, `store` is the `[4]uint32`
buffer, `out` the bytes written to the underlying `io.Writer` so far. -/
structure U32GroupVarintEncoder where
  index : Nat
  store : List Nat
  out : List Nat
  deriving DecidableEq, Repr

/-- `NewU32GroupVarintEncoder`: zero-valued struct. -/
def newEncoder : U32GroupVarintEncoder := ⟨0, [0, 0, 0, 0], []⟩

/-- The padding loop `for i := b.index; i < 4; i++ { b.store[i] = 0 }`. -/
def padStore (store : List Nat) (index : Nat) : List Nat :=
  store.take index ++ List.replicate (4 - index) 0

/-- `U32GroupVarintEncoder.Flush` (govarint.go lines 39-76): emits the size
byte and the per-slot bytes, truncating `4 - index` trailing bytes for a
partial group; returns the updated encoder and the reported byte count. -/
def U32GroupVarintEncoder.Flush (b : U32GroupVarintEncoder) :
    U32GroupVarintEncoder × Nat :=
  if b.index = 0 then (b, 0)
  else
    let store := padStore b.store b.index
    let payload := (store.map slotBytes).flatten
    let bytes := controlByte store :: payload
    let length := if b.index ≠ 4 then bytes.length - (4 - b.index) else bytes.length
    ({ b with store := store, out := b.out ++ bytes.take length }, length)

/-- `U32GroupVarintEncoder.PutU32` (govarint.go lines 78-91): stores the
value; on the fourth value flushes and resets `index` to 0. -/
def U32GroupVarintEncoder.PutU32 (b : U32GroupVarintEncoder) (x : Nat) :
    U32GroupVarintEncoder × Nat :=
  let b1 : U32GroupVarintEncoder :=
    { b with store := b.store.set b.index x, index := b.index + 1 }
  if b1.index = 4 then
    let fl := b1.Flush
    ({ fl.1 with index := 0 }, fl.2)
  else (b1, 0)

/-- `U32GroupVarintEncoder.Close` (govarint.go lines 93-96): just flushes. -/
def U32GroupVarintEncoder.Close (b : U32GroupVarintEncoder) :
    U32GroupVarintEncoder :=
  b.Flush.1

/-- Feed a whole list of values through `PutU32`. -/
def putAll (b : U32GroupVarintEncoder) (xs : List Nat) : U32GroupVarintEncoder :=
  xs.foldl (fun acc x => (acc.PutU32 x).1) b

/-- The byte stream produced by a fresh encoder fed `xs` via `PutU32` and
then closed. -/
def encodeSeq (xs : List Nat) : List Nat :=
  ((putAll newEncoder xs).Close).out

/-- Decoder state, mirroring the `U32GroupVarintDecoder` struct fields
`group`, `pos`, `finished`, `capacity`. -/
structure U32GroupVarintDecoder where
  group : List Nat
  pos : Nat
  finished : Bool
  capacity : Nat
  deriving DecidableEq, Repr

/-- `NewU32GroupVarintDecoder`: `pos = 4`, `capacity = 4`. -/
def newDecoder : U32GroupVarintDecoder := ⟨[0, 0, 0, 0], 4, false, 4⟩

/-- `size := int((sizeByte>>(uint8(3-index)*2))&0x03) + 1`
(govarint.go line 123). -/
def declaredSize (sizeByte index : Nat) : Nat :=
  ((sizeByte >>> ((3 - index) * 2)) &&& 0x03) + 1

/-- Result of the inner byte-reading loop of `getGroup` for one slot. -/
inductive SlotResult where
  | done (acc : Nat) (src : Source)
  | hitEof (acc : Nat) (src : Source)
  | fail (code : Nat) (acc : Nat) (src : Source)
  deriving DecidableEq, Repr

/-- The inner loop `for i := 0; i < size; i++` of `getGroup`
(govarint.go lines 124-136): accumulates big-endian bytes in 32-bit
arithmetic; EOF stops the loop, any other error aborts. -/
def readSlotLoop : Nat → Nat → Source → SlotResult
  | acc, 0, src => .done acc src
  | acc, n + 1, src =>
    match readByte src with
    | (Except.error IOErr.eof, src2) => .hitEof acc src2
    | (Except.error (IOErr.other c), src2) => .fail c acc src2
    | (Except.ok b, src2) => readSlotLoop ((acc * 256 + b) % 4294967296) n src2

/-- The outer loop `for index := 0; index < 4; index++` of `getGroup`,
with fuel counting the remaining slots (`index = 4 - fuel`): clears
`group[index]`, reads the declared bytes, and handles the EOF
partial-group case and hard errors exactly as govarint.go lines 118-143. -/
def getGroupAux (sizeByte : Nat) :
    Nat → U32GroupVarintDecoder → Source →
      Except IOErr Unit × U32GroupVarintDecoder × Source
  | 0, d, src => (Except.ok (), { d with pos := 0 }, src)
  | n + 1, d, src =>
    let index := 3 - n
    let d1 : U32GroupVarintDecoder := { d with group := d.group.set index 0 }
    match readSlotLoop 0 (declaredSize sizeByte index) src with
    | .done acc src2 =>
      let d2 : U32GroupVarintDecoder := { d1 with group := d1.group.set index acc }
      if d2.finished then (Except.ok (), { d2 with pos := 0 }, src2)
      else getGroupAux sizeByte n d2 src2
    | .hitEof acc src2 =>
      (Except.ok (),
        { d1 with group := d1.group.set index acc, capacity := index,
                  finished := true, pos := 0 }, src2)
    | .fail c acc src2 =>
      (Except.error (IOErr.other c), { d1 with group := d1.group.set index acc }, src2)

/-- `U32GroupVarintDecoder.getGroup` (govarint.go lines 112-144). -/
def U32GroupVarintDecoder.getGroup (d : U32GroupVarintDecoder) (src : Source) :
    Except IOErr Unit × U32GroupVarintDecoder × Source :=
  match readByte src with
  | (Except.error e, src2) => (Except.error e, d, src2)
  | (Except.ok sizeByte, src2) => getGroupAux sizeByte 4 d src2

/-- The tail of `GetU32`: `b.pos += 1; return b.group[b.pos-1], nil`.
Returns `none` where Go would stop with an index-out-of-range runtime
error. -/
def yieldValue (d : U32GroupVarintDecoder) (src : Source) :
    Option (Except IOErr Nat × U32GroupVarintDecoder × Source) :=
  let d2 : U32GroupVarintDecoder := { d with pos := d.pos + 1 }
  if h : d2.pos - 1 < d2.group.length then
    some (Except.ok (d2.group.get ⟨d2.pos - 1, h⟩), d2, src)
  else none

/-- `U32GroupVarintDecoder.GetU32` (govarint.go lines 146-161). -/
def U32GroupVarintDecoder.GetU32 (d : U32GroupVarintDecoder) (src : Source) :
    Option (Except IOErr Nat × U32GroupVarintDecoder × Source) :=
  if d.pos = d.capacity then
    if d.finished then some (Except.error IOErr.eof, d, src)
    else
      match d.getGroup src with
      | (Except.error e, d2, src2) => some (Except.error e, d2, src2)
      | (Except.ok _, d2, src2) => yieldValue d2 src2
  else yieldValue d src

/-- Call `GetU32` repeatedly (bounded by fuel): collects the yielded values,
the terminating error, and the final decoder state and source; `none` if Go
would have crashed or the fuel ran out. -/
def decodeAll :
    Nat → U32GroupVarintDecoder → Source →
      Option (List Nat × IOErr × U32GroupVarintDecoder × Source)
  | 0, _, _ => none
  | fuel + 1, d, src =>
    match d.GetU32 src with
    | none => none
    | some (Except.error e, d2, src2) => some ([], e, d2, src2)
    | some (Except.ok v, d2, src2) =>
      match decodeAll fuel d2 src2 with
      | none => none
      | some (vs, e, d3, src3) => some (v :: vs, e, d3, src3)

/-- The wire bytes one `Flush` of the values `vs` (at most 4, the real
buffered prefix) emits: size byte plus payload, truncated by `4 - vs.length`
trailing bytes for a partial group; empty for no buffered values. -/
def groupBytes (vs : List Nat) : List Nat :=
  if vs.isEmpty then []
  else
    let store := vs ++ List.replicate (4 - vs.length) 0
    let payload := (store.map slotBytes).flatten
    let bytes := controlByte store :: payload
    let length := if vs.length ≠ 4 then bytes.length - (4 - vs.length) else bytes.length
    bytes.take length

/-- The whole wire stream for a value sequence, group by group. -/
def encodeList : List Nat → List Nat
  | x0 :: x1 :: x2 :: x3 :: rest => groupBytes [x0, x1, x2, x3] ++ encodeList rest
  | xs => groupBytes xs

/-- Modelled from the spec and the Go standard library contract of
`binary.PutUvarint`, which `Base128Encoder` delegates to and which is not
part of this repository: the loop `for x >= 0x80 { buf[i] = byte(x)|0x80;
x >>= 7 }` followed by `buf[i] = byte(x)`, with fuel 11 covering every
value below `2^64`. -/
def putUvarintLoop : Nat → Nat → List Nat
  | 0, _ => []
  | fuel + 1, x =>
    if x < 128 then [x % 256]
    else ((x % 256) ||| 128) :: putUvarintLoop fuel (x / 128)

/-- The base-128 varint bytes of `x`. -/
def uvarint (x : Nat) : List Nat := putUvarintLoop 11 x

/-- `Base128Encoder.PutU32` (govarint.go lines 172-176): encodes
`uint64(x)` into a `MaxVarintLen32 = 5` byte buffer; `none` if the buffer
would overflow (a Go runtime error). -/
def Base128Encoder.PutU32 (x : Nat) : Option (List Nat) :=
  let bs := uvarint x
  if bs.length ≤ 5 then some bs else none

/-- `Base128Encoder.PutU64` (govarint.go lines 178-182): same with a
`MaxVarintLen64 = 10` byte buffer. -/
def Base128Encoder.PutU64 (x : Nat) : Option (List Nat) :=
  let bs := uvarint x
  if bs.length ≤ 10 then some bs else none

/-- Modelled from the spec: the minimal byte width of a value — the number
of bytes needed to represent it in big-endian form with no leading zero
byte, except that 0 itself always occupies exactly 1 byte. -/
def minimalByteWidth (x : Nat) : Nat :=
  if x = 0 then 1 else Nat.log 256 x + 1

/-- The total number of payload bytes a size byte declares for the last
`fuel` slots (all four slots at `fuel = 4`). -/
def totalDeclared (sizeByte : Nat) : Nat → Nat
  | 0 => 0
  | n + 1 => declaredSize sizeByte (3 - n) + totalDeclared sizeByte n

/-! ## Basic facts about `slotBytes` -/

lemma shiftRight24_eq (x : Nat) : x >>> 24 = x / 16777216 := by
  rw [Nat.shiftRight_eq_div_pow]

lemma shiftRight16_eq (x : Nat) : x >>> 16 = x / 65536 := by
  rw [Nat.shiftRight_eq_div_pow]

lemma shiftRight8_eq (x : Nat) : x >>> 8 = x / 256 := by
  rw [Nat.shiftRight_eq_div_pow]

lemma slotBytes_case1 (x : Nat) (h : x < 256) : slotBytes x = [x] := by
  have b24 : (x / 16777216 != 0) = false := by simp only [bne_eq_false_iff_eq]; omega
  have b16 : (x / 65536 != 0) = false := by simp only [bne_eq_false_iff_eq]; omega
  have b8 : (x / 256 != 0) = false := by simp only [bne_eq_false_iff_eq]; omega
  simp [slotBytes, List.filter, shiftRight24_eq, shiftRight16_eq, shiftRight8_eq,
    b24, b16, b8, Nat.mod_eq_of_lt h]

lemma slotBytes_case2 (x : Nat) (h1 : 256 ≤ x) (h2 : x < 65536) :
    slotBytes x = [x / 256, x % 256] := by
  have b24 : (x / 16777216 != 0) = false := by simp only [bne_eq_false_iff_eq]; omega
  have b16 : (x / 65536 != 0) = false := by simp only [bne_eq_false_iff_eq]; omega
  have b8 : (x / 256 != 0) = true := by simp only [bne_iff_ne, ne_eq]; omega
  simp [slotBytes, List.filter, shiftRight24_eq, shiftRight16_eq, shiftRight8_eq,
    b24, b16, b8, Nat.mod_eq_of_lt (show x / 256 < 256 by omega)]

lemma slotBytes_case3 (x : Nat) (h1 : 65536 ≤ x) (h2 : x < 16777216) :
    slotBytes x = [x / 65536, x / 256 % 256, x % 256] := by
  have b24 : (x / 16777216 != 0) = false := by simp only [bne_eq_false_iff_eq]; omega
  have b16 : (x / 65536 != 0) = true := by simp only [bne_iff_ne, ne_eq]; omega
  have b8 : (x / 256 != 0) = true := by simp only [bne_iff_ne, ne_eq]; omega
  simp [slotBytes, List.filter, shiftRight24_eq, shiftRight16_eq, shiftRight8_eq,
    b24, b16, b8, Nat.mod_eq_of_lt (show x / 65536 < 256 by omega)]

lemma slotBytes_case4 (x : Nat) (h1 : 16777216 ≤ x) (h2 : x < 4294967296) :
    slotBytes x = [x / 16777216, x / 65536 % 256, x / 256 % 256, x % 256] := by
  have b24 : (x / 16777216 != 0) = true := by simp only [bne_iff_ne, ne_eq]; omega
  have b16 : (x / 65536 != 0) = true := by simp only [bne_iff_ne, ne_eq]; omega
  have b8 : (x / 256 != 0) = true := by simp only [bne_iff_ne, ne_eq]; omega
  simp [slotBytes, List.filter, shiftRight24_eq, shiftRight16_eq, shiftRight8_eq,
    b24, b16, b8, Nat.mod_eq_of_lt (show x / 16777216 < 256 by omega)]

lemma slotBytes_length_pos (x : Nat) : 1 ≤ (slotBytes x).length := by
  cases b24 : (x >>> 24 != 0) <;> cases b16 : (x >>> 16 != 0) <;>
    cases b8 : (x >>> 8 != 0) <;> simp [slotBytes, List.filter, b24, b16, b8]

lemma slotBytes_length_le (x : Nat) : (slotBytes x).length ≤ 4 := by
  cases b24 : (x >>> 24 != 0) <;> cases b16 : (x >>> 16 != 0) <;>
    cases b8 : (x >>> 8 != 0) <;> simp [slotBytes, List.filter, b24, b16, b8]

/-- The slot-reading loop of `getGroup` inverts `slotBytes`: fed exactly the
bytes `Flush` wrote for a value below `2^32`, it reconstructs that value and
leaves the rest of the source untouched. -/
lemma readSlotLoop_slotBytes (x : Nat) (hx : x < 4294967296) (rest : Source) :
    readSlotLoop 0 (slotBytes x).length ((slotBytes x).map Except.ok ++ rest) =
      SlotResult.done x rest := by
  rcases Nat.lt_or_ge x 256 with h1 | h1
  · rw [slotBytes_case1 x h1]
    simp [readSlotLoop, readByte]
    omega
  rcases Nat.lt_or_ge x 65536 with h2 | h2
  · rw [slotBytes_case2 x h1 h2]
    simp [readSlotLoop, readByte]
    omega
  rcases Nat.lt_or_ge x 16777216 with h3 | h3
  · rw [slotBytes_case3 x h2 h3]
    simp [readSlotLoop, readByte]
    omega
  · rw [slotBytes_case4 x h3 hx]
    simp [readSlotLoop, readByte]
    omega

/-! ## The control byte: packing and extraction -/

lemma controlByte_cons4 (a b c d : Nat) :
    controlByte [a, b, c, d] =
      ((((0 ||| ((slotBytes a).length - 1) <<< 6) ||| ((slotBytes b).length - 1) <<< 4) |||
        ((slotBytes c).length - 1) <<< 2) ||| ((slotBytes d).length - 1) <<< 0) := by
  simp [controlByte, List.enum, List.enumFrom]

/-- Extraction of the four disjoint 2-bit fields from the packed size byte,
settled by exhausting the `4^4` width combinations. -/
lemma orPack_extract : ∀ p < 4, ∀ q < 4, ∀ r < 4, ∀ s < 4,
    (((((0 ||| p <<< 6) ||| q <<< 4) ||| r <<< 2) ||| s <<< 0) >>> 6) &&& 3 = p ∧
    (((((0 ||| p <<< 6) ||| q <<< 4) ||| r <<< 2) ||| s <<< 0) >>> 4) &&& 3 = q ∧
    (((((0 ||| p <<< 6) ||| q <<< 4) ||| r <<< 2) ||| s <<< 0) >>> 2) &&& 3 = r ∧
    (((((0 ||| p <<< 6) ||| q <<< 4) ||| r <<< 2) ||| s <<< 0) >>> 0) &&& 3 = s := by
  decide

/-- The decoder's declared size for each slot equals the byte count the
encoder wrote for that slot. -/
lemma declaredSize_controlByte (a b c d : Nat) :
    declaredSize (controlByte [a, b, c, d]) 0 = (slotBytes a).length ∧
    declaredSize (controlByte [a, b, c, d]) 1 = (slotBytes b).length ∧
    declaredSize (controlByte [a, b, c, d]) 2 = (slotBytes c).length ∧
    declaredSize (controlByte [a, b, c, d]) 3 = (slotBytes d).length := by
  have ha1 := slotBytes_length_pos a
  have ha4 := slotBytes_length_le a
  have hb1 := slotBytes_length_pos b
  have hb4 := slotBytes_length_le b
  have hc1 := slotBytes_length_pos c
  have hc4 := slotBytes_length_le c
  have hd1 := slotBytes_length_pos d
  have hd4 := slotBytes_length_le d
  have pack := orPack_extract ((slotBytes a).length - 1) (by omega)
    ((slotBytes b).length - 1) (by omega) ((slotBytes c).length - 1) (by omega)
    ((slotBytes d).length - 1) (by omega)
  have e0 : declaredSize (controlByte [a, b, c, d]) 0
      = ((controlByte [a, b, c, d] >>> 6) &&& 3) + 1 := rfl
  have e1 : declaredSize (controlByte [a, b, c, d]) 1
      = ((controlByte [a, b, c, d] >>> 4) &&& 3) + 1 := rfl
  have e2 : declaredSize (controlByte [a, b, c, d]) 2
      = ((controlByte [a, b, c, d] >>> 2) &&& 3) + 1 := rfl
  have e3 : declaredSize (controlByte [a, b, c, d]) 3
      = ((controlByte [a, b, c, d] >>> 0) &&& 3) + 1 := rfl
  refine ⟨?_, ?_, ?_, ?_⟩
  · rw [e0, controlByte_cons4, pack.1]; omega
  · rw [e1, controlByte_cons4, pack.2.1]; omega
  · rw [e2, controlByte_cons4, pack.2.2.1]; omega
  · rw [e3, controlByte_cons4, pack.2.2.2]; omega

/-! ## The encoder, characterised group by group -/

lemma slotBytes_zero : slotBytes 0 = [0] := by decide

/-- A full group: `groupBytes` is the size byte followed by the whole
payload. -/
lemma groupBytes_full (a b c d : Nat) :
    groupBytes [a, b, c, d] =
      controlByte [a, b, c, d] :: (slotBytes a ++ (slotBytes b ++ (slotBytes c ++ slotBytes d))) := by
  simp [groupBytes]

/-- A one-value partial group: the three padding bytes are truncated. -/
lemma groupBytes_partial1 (a : Nat) :
    groupBytes [a] = controlByte [a, 0, 0, 0] :: slotBytes a := by
  simp [groupBytes, slotBytes_zero]

lemma take_cons_append (c0 : Nat) (l1 l2 : List Nat) (n : Nat)
    (h : n = l1.length + 1) : (c0 :: (l1 ++ l2)).take n = c0 :: l1 := by
  subst h
  rw [List.take_succ_cons, List.take_left]

/-- A two-value partial group. -/
lemma groupBytes_partial2 (a b : Nat) :
    groupBytes [a, b] = controlByte [a, b, 0, 0] :: (slotBytes a ++ slotBytes b) := by
  simp [groupBytes, slotBytes_zero]
  rw [show slotBytes a ++ (slotBytes b ++ [0, 0]) = (slotBytes a ++ slotBytes b) ++ [0, 0]
    by simp]
  rw [take_cons_append _ _ _ _ (by simp; omega)]

/-- A three-value partial group. -/
lemma groupBytes_partial3 (a b c : Nat) :
    groupBytes [a, b, c] =
      controlByte [a, b, c, 0] :: (slotBytes a ++ (slotBytes b ++ slotBytes c)) := by
  simp [groupBytes, slotBytes_zero]
  rw [show slotBytes a ++ (slotBytes b ++ (slotBytes c ++ [0]))
      = (slotBytes a ++ (slotBytes b ++ slotBytes c)) ++ [0] by simp]
  rw [take_cons_append _ _ _ _ (by simp; omega)]

/-- Four `PutU32` calls from an empty buffer flush one full group and leave
the buffer empty again. -/
lemma putAll_cons4 (s0 s1 s2 s3 : Nat) (out : List Nat) (a b c d : Nat)
    (rest : List Nat) :
    putAll ⟨0, [s0, s1, s2, s3], out⟩ (a :: b :: c :: d :: rest) =
      putAll ⟨0, [a, b, c, d], out ++ groupBytes [a, b, c, d]⟩ rest := by
  simp [putAll, U32GroupVarintEncoder.PutU32, U32GroupVarintEncoder.Flush,
    padStore, groupBytes]

/-- Running the encoder on a whole sequence and closing it produces the
chunked wire stream `encodeList`. -/
lemma putAll_close_out :
    ∀ n xs s0 s1 s2 s3 out, List.length xs ≤ n →
      ((putAll ⟨0, [s0, s1, s2, s3], out⟩ xs).Close).out = out ++ encodeList xs := by
  intro n
  induction n with
  | zero =>
    intro xs s0 s1 s2 s3 out hlen
    match xs with
    | [] =>
      simp [putAll, U32GroupVarintEncoder.Close, U32GroupVarintEncoder.Flush,
        encodeList, groupBytes]
    | x :: rest => simp at hlen
  | succ n ih =>
    intro xs s0 s1 s2 s3 out hlen
    match xs with
    | [] =>
      simp [putAll, U32GroupVarintEncoder.Close, U32GroupVarintEncoder.Flush,
        encodeList, groupBytes]
    | [a] =>
      simp [putAll, U32GroupVarintEncoder.PutU32, U32GroupVarintEncoder.Close,
        U32GroupVarintEncoder.Flush, padStore, encodeList, groupBytes]
    | [a, b] =>
      simp [putAll, U32GroupVarintEncoder.PutU32, U32GroupVarintEncoder.Close,
        U32GroupVarintEncoder.Flush, padStore, encodeList, groupBytes]
    | [a, b, c] =>
      simp [putAll, U32GroupVarintEncoder.PutU32, U32GroupVarintEncoder.Close,
        U32GroupVarintEncoder.Flush, padStore, encodeList, groupBytes]
    | a :: b :: c :: d :: rest =>
      rw [putAll_cons4, ih rest a b c d (out ++ groupBytes [a, b, c, d])
        (by simp at hlen ⊢; omega)]
      show _ = out ++ encodeList (a :: b :: c :: d :: rest)
      rw [show encodeList (a :: b :: c :: d :: rest)
          = groupBytes [a, b, c, d] ++ encodeList rest from rfl]
      rw [List.append_assoc]

/-- `encodeSeq` agrees with the group-by-group description of the wire
stream. -/
lemma encodeSeq_eq_encodeList (xs : List Nat) : encodeSeq xs = encodeList xs := by
  have h := putAll_close_out xs.length xs 0 0 0 0 [] (le_refl _)
  simpa [encodeSeq, newEncoder] using h

/-! ## The decoder on encoder-produced groups -/

lemma readSlotLoop_slotBytes_nil (x : Nat) (hx : x < 4294967296) :
    readSlotLoop 0 (slotBytes x).length ((slotBytes x).map Except.ok) =
      SlotResult.done x [] := by
  have h := readSlotLoop_slotBytes x hx []
  rwa [List.append_nil] at h

lemma readSlotLoop_declared_nil (sb i acc : Nat) :
    readSlotLoop acc (declaredSize sb i) [] = SlotResult.hitEof acc [] := rfl

/-- One slot of `getGroup`, fed exactly the slot's encoded bytes: the loop
stores the decoded value and moves on to the next slot. -/
lemma getGroupAux_step (sb n : Nat) (d : U32GroupVarintDecoder) (x : Nat)
    (hx : x < 4294967296) (hsz : declaredSize sb (3 - n) = (slotBytes x).length)
    (hfin : d.finished = false) (rest : Source) :
    getGroupAux sb (n + 1) d ((slotBytes x).map Except.ok ++ rest) =
      getGroupAux sb n { d with group := d.group.set (3 - n) x } rest := by
  rw [getGroupAux, hsz, readSlotLoop_slotBytes x hx rest]
  simp [hfin, List.set_set]

/-- Same, when this slot is the last one in the stream. -/
lemma getGroupAux_step_last (sb n : Nat) (d : U32GroupVarintDecoder) (x : Nat)
    (hx : x < 4294967296) (hsz : declaredSize sb (3 - n) = (slotBytes x).length)
    (hfin : d.finished = false) :
    getGroupAux sb (n + 1) d ((slotBytes x).map Except.ok) =
      getGroupAux sb n { d with group := d.group.set (3 - n) x } [] := by
  rw [getGroupAux, hsz, readSlotLoop_slotBytes_nil x hx]
  simp [hfin, List.set_set]

/-- An exhausted source at the start of a slot: the partial-group path sets
`capacity` to the slot index and marks the decoder finished. -/
lemma getGroupAux_eof (sb n : Nat) (d : U32GroupVarintDecoder) :
    getGroupAux sb (n + 1) d [] =
      (Except.ok (),
        { d with
            group := d.group.set (3 - n) 0
            capacity := 3 - n
            finished := true
            pos := 0 },
        []) := by
  rw [getGroupAux, readSlotLoop_declared_nil]
  simp [List.set_set]

lemma getGroupAux_zero (sb : Nat) (d : U32GroupVarintDecoder) (src : Source) :
    getGroupAux sb 0 d src = (Except.ok (), { d with pos := 0 }, src) := rfl

/-- Reading one full group back: `getGroup` consumes exactly the group's
bytes, recovers the four values and resets `pos`. -/
lemma getGroup_full (a b c d : Nat) (ha : a < 4294967296) (hb : b < 4294967296)
    (hc : c < 4294967296) (hd : d < 4294967296) (g0 g1 g2 g3 p cap : Nat)
    (rest : Source) :
    U32GroupVarintDecoder.getGroup ⟨[g0, g1, g2, g3], p, false, cap⟩
        (Except.ok (controlByte [a, b, c, d]) ::
          ((slotBytes a).map Except.ok ++ ((slotBytes b).map Except.ok ++
            ((slotBytes c).map Except.ok ++ ((slotBytes d).map Except.ok ++ rest))))) =
      (Except.ok (), ⟨[a, b, c, d], 0, false, cap⟩, rest) := by
  obtain ⟨e0, e1, e2, e3⟩ := declaredSize_controlByte a b c d
  calc
    U32GroupVarintDecoder.getGroup ⟨[g0, g1, g2, g3], p, false, cap⟩
        (Except.ok (controlByte [a, b, c, d]) ::
          ((slotBytes a).map Except.ok ++ ((slotBytes b).map Except.ok ++
            ((slotBytes c).map Except.ok ++ ((slotBytes d).map Except.ok ++ rest)))))
      = getGroupAux (controlByte [a, b, c, d]) 3 ⟨[a, g1, g2, g3], p, false, cap⟩
          ((slotBytes b).map Except.ok ++
            ((slotBytes c).map Except.ok ++ ((slotBytes d).map Except.ok ++ rest))) :=
        getGroupAux_step (controlByte [a, b, c, d]) 3 ⟨[g0, g1, g2, g3], p, false, cap⟩
          a ha e0 rfl _
    _ = getGroupAux (controlByte [a, b, c, d]) 2 ⟨[a, b, g2, g3], p, false, cap⟩
          ((slotBytes c).map Except.ok ++ ((slotBytes d).map Except.ok ++ rest)) :=
        getGroupAux_step (controlByte [a, b, c, d]) 2 ⟨[a, g1, g2, g3], p, false, cap⟩
          b hb e1 rfl _
    _ = getGroupAux (controlByte [a, b, c, d]) 1 ⟨[a, b, c, g3], p, false, cap⟩
          ((slotBytes d).map Except.ok ++ rest) :=
        getGroupAux_step (controlByte [a, b, c, d]) 1 ⟨[a, b, g2, g3], p, false, cap⟩
          c hc e2 rfl _
    _ = getGroupAux (controlByte [a, b, c, d]) 0 ⟨[a, b, c, d], p, false, cap⟩ rest :=
        getGroupAux_step (controlByte [a, b, c, d]) 0 ⟨[a, b, c, g3], p, false, cap⟩
          d hd e3 rfl _
    _ = (Except.ok (), ⟨[a, b, c, d], 0, false, cap⟩, rest) := rfl

/-- Reading back a one-value partial group: the source ends where the
second slot's single declared byte should start. -/
lemma getGroup_partial1 (a : Nat) (ha : a < 4294967296) (g0 g1 g2 g3 p cap : Nat) :
    U32GroupVarintDecoder.getGroup ⟨[g0, g1, g2, g3], p, false, cap⟩
        (Except.ok (controlByte [a, 0, 0, 0]) :: (slotBytes a).map Except.ok) =
      (Except.ok (), ⟨[a, 0, g2, g3], 0, true, 1⟩, []) := by
  obtain ⟨e0, e1, e2, e3⟩ := declaredSize_controlByte a 0 0 0
  calc
    U32GroupVarintDecoder.getGroup ⟨[g0, g1, g2, g3], p, false, cap⟩
        (Except.ok (controlByte [a, 0, 0, 0]) :: (slotBytes a).map Except.ok)
      = getGroupAux (controlByte [a, 0, 0, 0]) 3 ⟨[a, g1, g2, g3], p, false, cap⟩ [] :=
        getGroupAux_step_last (controlByte [a, 0, 0, 0]) 3
          ⟨[g0, g1, g2, g3], p, false, cap⟩ a ha e0 rfl
    _ = (Except.ok (), ⟨[a, 0, g2, g3], 0, true, 1⟩, []) :=
        getGroupAux_eof (controlByte [a, 0, 0, 0]) 2 ⟨[a, g1, g2, g3], p, false, cap⟩

/-- Reading back a two-value partial group. -/
lemma getGroup_partial2 (a b : Nat) (ha : a < 4294967296) (hb : b < 4294967296)
    (g0 g1 g2 g3 p cap : Nat) :
    U32GroupVarintDecoder.getGroup ⟨[g0, g1, g2, g3], p, false, cap⟩
        (Except.ok (controlByte [a, b, 0, 0]) ::
          ((slotBytes a).map Except.ok ++ (slotBytes b).map Except.ok)) =
      (Except.ok (), ⟨[a, b, 0, g3], 0, true, 2⟩, []) := by
  obtain ⟨e0, e1, e2, e3⟩ := declaredSize_controlByte a b 0 0
  calc
    U32GroupVarintDecoder.getGroup ⟨[g0, g1, g2, g3], p, false, cap⟩
        (Except.ok (controlByte [a, b, 0, 0]) ::
          ((slotBytes a).map Except.ok ++ (slotBytes b).map Except.ok))
      = getGroupAux (controlByte [a, b, 0, 0]) 3 ⟨[a, g1, g2, g3], p, false, cap⟩
          ((slotBytes b).map Except.ok) :=
        getGroupAux_step (controlByte [a, b, 0, 0]) 3 ⟨[g0, g1, g2, g3], p, false, cap⟩
          a ha e0 rfl _
    _ = getGroupAux (controlByte [a, b, 0, 0]) 2 ⟨[a, b, g2, g3], p, false, cap⟩ [] :=
        getGroupAux_step_last (controlByte [a, b, 0, 0]) 2
          ⟨[a, g1, g2, g3], p, false, cap⟩ b hb e1 rfl
    _ = (Except.ok (), ⟨[a, b, 0, g3], 0, true, 2⟩, []) :=
        getGroupAux_eof (controlByte [a, b, 0, 0]) 1 ⟨[a, b, g2, g3], p, false, cap⟩

/-- Reading back a three-value partial group. -/
lemma getGroup_partial3 (a b c : Nat) (ha : a < 4294967296) (hb : b < 4294967296)
    (hc : c < 4294967296) (g0 g1 g2 g3 p cap : Nat) :
    U32GroupVarintDecoder.getGroup ⟨[g0, g1, g2, g3], p, false, cap⟩
        (Except.ok (controlByte [a, b, c, 0]) ::
          ((slotBytes a).map Except.ok ++
            ((slotBytes b).map Except.ok ++ (slotBytes c).map Except.ok))) =
      (Except.ok (), ⟨[a, b, c, 0], 0, true, 3⟩, []) := by
  obtain ⟨e0, e1, e2, e3⟩ := declaredSize_controlByte a b c 0
  calc
    U32GroupVarintDecoder.getGroup ⟨[g0, g1, g2, g3], p, false, cap⟩
        (Except.ok (controlByte [a, b, c, 0]) ::
          ((slotBytes a).map Except.ok ++
            ((slotBytes b).map Except.ok ++ (slotBytes c).map Except.ok)))
      = getGroupAux (controlByte [a, b, c, 0]) 3 ⟨[a, g1, g2, g3], p, false, cap⟩
          ((slotBytes b).map Except.ok ++ (slotBytes c).map Except.ok) :=
        getGroupAux_step (controlByte [a, b, c, 0]) 3 ⟨[g0, g1, g2, g3], p, false, cap⟩
          a ha e0 rfl _
    _ = getGroupAux (controlByte [a, b, c, 0]) 2 ⟨[a, b, g2, g3], p, false, cap⟩
          ((slotBytes c).map Except.ok) :=
        getGroupAux_step (controlByte [a, b, c, 0]) 2 ⟨[a, g1, g2, g3], p, false, cap⟩
          b hb e1 rfl _
    _ = getGroupAux (controlByte [a, b, c, 0]) 1 ⟨[a, b, c, g3], p, false, cap⟩ [] :=
        getGroupAux_step_last (controlByte [a, b, c, 0]) 1
          ⟨[a, b, g2, g3], p, false, cap⟩ c hc e2 rfl
    _ = (Except.ok (), ⟨[a, b, c, 0], 0, true, 3⟩, []) :=
        getGroupAux_eof (controlByte [a, b, c, 0]) 0 ⟨[a, b, c, g3], p, false, cap⟩

/-! ## Decoding a whole encoded stream -/

lemma decodeAll_ok (fuel : Nat) (hf : 1 ≤ fuel) (d : U32GroupVarintDecoder)
    (src : Source) (v : Nat) (d2 : U32GroupVarintDecoder) (src2 : Source)
    (h : d.GetU32 src = some (Except.ok v, d2, src2)) :
    decodeAll fuel d src =
      match decodeAll (fuel - 1) d2 src2 with
      | none => none
      | some (vs, e, d3, s3) => some (v :: vs, e, d3, s3) := by
  match fuel, hf with
  | k + 1, _ => rw [decodeAll, h]; simp

lemma decodeAll_error (fuel : Nat) (hf : 1 ≤ fuel) (d : U32GroupVarintDecoder)
    (src : Source) (e : IOErr) (d2 : U32GroupVarintDecoder) (src2 : Source)
    (h : d.GetU32 src = some (Except.error e, d2, src2)) :
    decodeAll fuel d src = some ([], e, d2, src2) := by
  match fuel, hf with
  | k + 1, _ => rw [decodeAll, h]

/-- Decoding the wire stream of `xs` from any group boundary recovers `xs`,
ends with EndOfData on an empty残 source, and every later `GetU32` keeps
reporting EndOfData. -/
lemma decode_encodeList :
    ∀ n xs, List.length xs ≤ n → (∀ x ∈ xs, x < 4294967296) →
      ∀ g0 g1 g2 g3 : Nat,
        ∃ dF : U32GroupVarintDecoder,
          decodeAll (xs.length + 1) ⟨[g0, g1, g2, g3], 4, false, 4⟩
              ((encodeList xs).map Except.ok) = some (xs, IOErr.eof, dF, []) ∧
          dF.GetU32 [] = some (Except.error IOErr.eof, dF, []) := by
  intro n
  induction n with
  | zero =>
    intro xs hn hx g0 g1 g2 g3
    have hxs : xs = [] := List.eq_nil_of_length_eq_zero (by omega)
    subst hxs
    exact ⟨⟨[g0, g1, g2, g3], 4, false, 4⟩,
      by simp [encodeList, groupBytes, decodeAll, U32GroupVarintDecoder.GetU32,
        U32GroupVarintDecoder.getGroup, readByte],
      by simp [U32GroupVarintDecoder.GetU32, U32GroupVarintDecoder.getGroup, readByte]⟩
  | succ n ih =>
    intro xs hn hx g0 g1 g2 g3
    match xs with
    | [] =>
      exact ⟨⟨[g0, g1, g2, g3], 4, false, 4⟩,
        by simp [encodeList, groupBytes, decodeAll, U32GroupVarintDecoder.GetU32,
          U32GroupVarintDecoder.getGroup, readByte],
        by simp [U32GroupVarintDecoder.GetU32, U32GroupVarintDecoder.getGroup, readByte]⟩
    | [a] =>
      have ha : a < 4294967296 := hx a (by simp)
      have hpg := getGroup_partial1 a ha g0 g1 g2 g3 4 4
      have f0 : (⟨[g0, g1, g2, g3], 4, false, 4⟩ :
          U32GroupVarintDecoder).GetU32
            (Except.ok (controlByte [a, 0, 0, 0]) :: (slotBytes a).map Except.ok) =
          some (Except.ok a, ⟨[a, 0, g2, g3], 1, true, 1⟩, []) := by
        simp [U32GroupVarintDecoder.GetU32, hpg, yieldValue]
      have f1 : (⟨[a, 0, g2, g3], 1, true, 1⟩ :
          U32GroupVarintDecoder).GetU32 [] =
          some (Except.error IOErr.eof, ⟨[a, 0, g2, g3], 1, true, 1⟩, []) := by
        simp [U32GroupVarintDecoder.GetU32]
      refine ⟨⟨[a, 0, g2, g3], 1, true, 1⟩, ?_, f1⟩
      rw [show encodeList [a] = groupBytes [a] from rfl, groupBytes_partial1]
      simp only [List.map_cons, List.length_cons, List.length_nil]
      rw [decodeAll_ok 2 (by omega) _ _ _ _ _ f0]
      norm_num
      rw [decodeAll_error 1 (by omega) _ _ _ _ _ f1]
    | [a, b] =>
      have ha : a < 4294967296 := hx a (by simp)
      have hb : b < 4294967296 := hx b (by simp)
      have hpg := getGroup_partial2 a b ha hb g0 g1 g2 g3 4 4
      have f0 : (⟨[g0, g1, g2, g3], 4, false, 4⟩ :
          U32GroupVarintDecoder).GetU32
            (Except.ok (controlByte [a, b, 0, 0]) ::
              ((slotBytes a).map Except.ok ++ (slotBytes b).map Except.ok)) =
          some (Except.ok a, ⟨[a, b, 0, g3], 1, true, 2⟩, []) := by
        simp [U32GroupVarintDecoder.GetU32, hpg, yieldValue]
      have f1 : (⟨[a, b, 0, g3], 1, true, 2⟩ :
          U32GroupVarintDecoder).GetU32 [] =
          some (Except.ok b, ⟨[a, b, 0, g3], 2, true, 2⟩, []) := by
        simp [U32GroupVarintDecoder.GetU32, yieldValue]
      have f2 : (⟨[a, b, 0, g3], 2, true, 2⟩ :
          U32GroupVarintDecoder).GetU32 [] =
          some (Except.error IOErr.eof, ⟨[a, b, 0, g3], 2, true, 2⟩, []) := by
        simp [U32GroupVarintDecoder.GetU32]
      refine ⟨⟨[a, b, 0, g3], 2, true, 2⟩, ?_, f2⟩
      rw [show encodeList [a, b] = groupBytes [a, b] from rfl, groupBytes_partial2]
      simp only [List.map_cons, List.map_append, List.length_cons, List.length_nil]
      rw [decodeAll_ok 3 (by omega) _ _ _ _ _ f0]
      norm_num
      rw [decodeAll_ok 2 (by omega) _ _ _ _ _ f1]
      norm_num
      rw [decodeAll_error 1 (by omega) _ _ _ _ _ f2]
    | [a, b, c] =>
      have ha : a < 4294967296 := hx a (by simp)
      have hb : b < 4294967296 := hx b (by simp)
      have hc : c < 4294967296 := hx c (by simp)
      have hpg := getGroup_partial3 a b c ha hb hc g0 g1 g2 g3 4 4
      have f0 : (⟨[g0, g1, g2, g3], 4, false, 4⟩ :
          U32GroupVarintDecoder).GetU32
            (Except.ok (controlByte [a, b, c, 0]) ::
              ((slotBytes a).map Except.ok ++
                ((slotBytes b).map Except.ok ++ (slotBytes c).map Except.ok))) =
          some (Except.ok a, ⟨[a, b, c, 0], 1, true, 3⟩, []) := by
        simp [U32GroupVarintDecoder.GetU32, hpg, yieldValue]
      have f1 : (⟨[a, b, c, 0], 1, true, 3⟩ :
          U32GroupVarintDecoder).GetU32 [] =
          some (Except.ok b, ⟨[a, b, c, 0], 2, true, 3⟩, []) := by
        simp [U32GroupVarintDecoder.GetU32, yieldValue]
      have f2 : (⟨[a, b, c, 0], 2, true, 3⟩ :
          U32GroupVarintDecoder).GetU32 [] =
          some (Except.ok c, ⟨[a, b, c, 0], 3, true, 3⟩, []) := by
        simp [U32GroupVarintDecoder.GetU32, yieldValue]
      have f3 : (⟨[a, b, c, 0], 3, true, 3⟩ :
          U32GroupVarintDecoder).GetU32 [] =
          some (Except.error IOErr.eof, ⟨[a, b, c, 0], 3, true, 3⟩, []) := by
        simp [U32GroupVarintDecoder.GetU32]
      refine ⟨⟨[a, b, c, 0], 3, true, 3⟩, ?_, f3⟩
      rw [show encodeList [a, b, c] = groupBytes [a, b, c] from rfl, groupBytes_partial3]
      simp only [List.map_cons, List.map_append, List.length_cons, List.length_nil]
      rw [decodeAll_ok 4 (by omega) _ _ _ _ _ f0]
      norm_num
      rw [decodeAll_ok 3 (by omega) _ _ _ _ _ f1]
      norm_num
      rw [decodeAll_ok 2 (by omega) _ _ _ _ _ f2]
      norm_num
      rw [decodeAll_error 1 (by omega) _ _ _ _ _ f3]
    | a :: b :: c :: d :: rest =>
      have ha : a < 4294967296 := hx a (by simp)
      have hb : b < 4294967296 := hx b (by simp)
      have hc : c < 4294967296 := hx c (by simp)
      have hd : d < 4294967296 := hx d (by simp)
      have hgf := getGroup_full a b c d ha hb hc hd g0 g1 g2 g3 4 4
        ((encodeList rest).map Except.ok)
      have f0 : (⟨[g0, g1, g2, g3], 4, false, 4⟩ :
          U32GroupVarintDecoder).GetU32
            (Except.ok (controlByte [a, b, c, d]) ::
              ((slotBytes a).map Except.ok ++ ((slotBytes b).map Except.ok ++
                ((slotBytes c).map Except.ok ++ ((slotBytes d).map Except.ok ++
                  (encodeList rest).map Except.ok))))) =
          some (Except.ok a, ⟨[a, b, c, d], 1, false, 4⟩,
            (encodeList rest).map Except.ok) := by
        simp [U32GroupVarintDecoder.GetU32, hgf, yieldValue]
      have f1 : (⟨[a, b, c, d], 1, false, 4⟩ :
          U32GroupVarintDecoder).GetU32 ((encodeList rest).map Except.ok) =
          some (Except.ok b, ⟨[a, b, c, d], 2, false, 4⟩,
            (encodeList rest).map Except.ok) := by
        simp [U32GroupVarintDecoder.GetU32, yieldValue]
      have f2 : (⟨[a, b, c, d], 2, false, 4⟩ :
          U32GroupVarintDecoder).GetU32 ((encodeList rest).map Except.ok) =
          some (Except.ok c, ⟨[a, b, c, d], 3, false, 4⟩,
            (encodeList rest).map Except.ok) := by
        simp [U32GroupVarintDecoder.GetU32, yieldValue]
      have f3 : (⟨[a, b, c, d], 3, false, 4⟩ :
          U32GroupVarintDecoder).GetU32 ((encodeList rest).map Except.ok) =
          some (Except.ok d, ⟨[a, b, c, d], 4, false, 4⟩,
            (encodeList rest).map Except.ok) := by
        simp [U32GroupVarintDecoder.GetU32, yieldValue]
        rfl
      obtain ⟨dF, hIH, hfix⟩ := ih rest (by simp at hn; omega)
        (fun x hmem => hx x (by simp [hmem])) a b c d
      refine ⟨dF, ?_, hfix⟩
      rw [show encodeList (a :: b :: c :: d :: rest)
          = groupBytes [a, b, c, d] ++ encodeList rest from rfl, groupBytes_full]
      simp only [List.map_cons, List.map_append, List.cons_append,
        List.append_assoc, List.length_cons]
      rw [show rest.length + 1 + 1 + 1 + 1 + 1 = rest.length + 5 from by omega]
      rw [decodeAll_ok (rest.length + 5) (by omega) _ _ _ _ _ f0]
      rw [show rest.length + 5 - 1 = rest.length + 4 from by omega]
      rw [decodeAll_ok (rest.length + 4) (by omega) _ _ _ _ _ f1]
      rw [show rest.length + 4 - 1 = rest.length + 3 from by omega]
      rw [decodeAll_ok (rest.length + 3) (by omega) _ _ _ _ _ f2]
      rw [show rest.length + 3 - 1 = rest.length + 2 from by omega]
      rw [decodeAll_ok (rest.length + 2) (by omega) _ _ _ _ _ f3]
      rw [show rest.length + 2 - 1 = rest.length + 1 from by omega]
      rw [hIH]

/-! ## Hard read errors propagate through `getGroup` -/

lemma readSlotLoop_ok_all (l : List Nat) : ∀ (acc : Nat) (r : Source),
    readSlotLoop acc l.length (l.map Except.ok ++ r) =
      SlotResult.done (l.foldl (fun a b => (a * 256 + b) % 4294967296) acc) r := by
  induction l with
  | nil => intro acc r; simp [readSlotLoop]
  | cons x xs ih =>
    intro acc r
    simp only [List.map_cons, List.length_cons, List.cons_append]
    rw [readSlotLoop, List.foldl_cons]
    exact ih _ r

lemma readSlotLoop_ok_of_len (l : List Nat) (n : Nat) (h : l.length = n)
    (acc : Nat) (r : Source) :
    readSlotLoop acc n (l.map Except.ok ++ r) =
      SlotResult.done (l.foldl (fun a b => (a * 256 + b) % 4294967296) acc) r := by
  subst h
  exact readSlotLoop_ok_all l acc r

lemma readSlotLoop_hits_err (l : List Nat) : ∀ (n : Nat), l.length < n →
    ∀ (acc c : Nat) (s : Source),
      readSlotLoop acc n (l.map Except.ok ++ Except.error (IOErr.other c) :: s) =
        SlotResult.fail c (l.foldl (fun a b => (a * 256 + b) % 4294967296) acc) s := by
  induction l with
  | nil =>
    intro n hn acc c s
    match n, hn with
    | m + 1, _ => simp [readSlotLoop, readByte]
  | cons x xs ih =>
    intro n hn acc c s
    match n, hn with
    | m + 1, hn =>
      simp only [List.map_cons, List.cons_append, List.foldl_cons]
      rw [readSlotLoop]
      exact ih m (by simp at hn; omega) _ c s

/-- A hard (non-EOF) read error hit while reading the declared bytes of any
slot makes `getGroupAux` return exactly that error, with the source
consumed up to and including the failing read. -/
lemma getGroupAux_fail (sb : Nat) : ∀ (fuel : Nat) (d : U32GroupVarintDecoder)
    (pre : List Nat) (c : Nat) (s : Source), d.finished = false →
    pre.length < totalDeclared sb fuel →
    ∃ d2, getGroupAux sb fuel d
        (pre.map Except.ok ++ Except.error (IOErr.other c) :: s) =
      (Except.error (IOErr.other c), d2, s) := by
  intro fuel
  induction fuel with
  | zero =>
    intro d pre c s hfin hlt
    simp [totalDeclared] at hlt
  | succ n ih =>
    intro d pre c s hfin hlt
    by_cases hsz : pre.length < declaredSize sb (3 - n)
    · refine ⟨{ d with
          group := d.group.set (3 - n)
              (pre.foldl (fun a b => (a * 256 + b) % 4294967296) 0) }, ?_⟩
      rw [getGroupAux, readSlotLoop_hits_err pre _ hsz 0 c s]
      simp [List.set_set]
    · push_neg at hsz
      have hl1 : (pre.take (declaredSize sb (3 - n))).length = declaredSize sb (3 - n) := by
        simp [List.length_take]
        omega
      obtain ⟨d2, hd2⟩ := ih
        { d with
            group := d.group.set (3 - n)
                ((pre.take (declaredSize sb (3 - n))).foldl
                  (fun a b => (a * 256 + b) % 4294967296) 0) }
        (pre.drop (declaredSize sb (3 - n))) c s (by simp [hfin])
        (by
          have := totalDeclared sb n
          simp only [List.length_drop]
          have hTD : totalDeclared sb (n + 1)
              = declaredSize sb (3 - n) + totalDeclared sb n := rfl
          omega)
      refine ⟨d2, ?_⟩
      rw [getGroupAux]
      rw [show pre.map Except.ok ++ Except.error (IOErr.other c) :: s
          = (pre.take (declaredSize sb (3 - n))).map Except.ok ++
            ((pre.drop (declaredSize sb (3 - n))).map Except.ok ++
              Except.error (IOErr.other c) :: s) from by
        rw [← List.append_assoc, ← List.map_append, List.take_append_drop]]
      rw [readSlotLoop_ok_of_len _ _ hl1]
      simp only [List.set_set]
      simp [hfin]
      simpa [hfin] using hd2

/-! ## Remaining helper lemmas -/

/-- The buffered count after feeding `xs` into a fresh-buffer encoder is
`xs.length % 4`: only the `PutU32` full-group path ever resets it. -/
lemma putAll_index :
    ∀ n xs s0 s1 s2 s3 out, List.length xs ≤ n →
      (putAll ⟨0, [s0, s1, s2, s3], out⟩ xs).index = xs.length % 4 := by
  intro n
  induction n with
  | zero =>
    intro xs s0 s1 s2 s3 out hlen
    match xs with
    | [] => simp [putAll]
    | x :: rest => simp at hlen
  | succ n ih =>
    intro xs s0 s1 s2 s3 out hlen
    match xs with
    | [] => simp [putAll]
    | [a] => simp [putAll, U32GroupVarintEncoder.PutU32]
    | [a, b] => simp [putAll, U32GroupVarintEncoder.PutU32]
    | [a, b, c] => simp [putAll, U32GroupVarintEncoder.PutU32]
    | a :: b :: c :: d :: rest =>
      rw [putAll_cons4, ih rest a b c d (out ++ groupBytes [a, b, c, d])
        (by simp at hlen ⊢; omega)]
      simp only [List.length_cons]
      omega

/-- `slotBytes` realises the spec's minimal byte width. -/
lemma slotBytes_length_eq_minimalByteWidth (x : Nat) (hx : x < 4294967296) :
    (slotBytes x).length = minimalByteWidth x := by
  rcases Nat.eq_zero_or_pos x with h0 | h0
  · subst h0; rw [slotBytes_zero, minimalByteWidth]; simp
  rcases Nat.lt_or_ge x 256 with h1 | h1
  · rw [slotBytes_case1 x h1, minimalByteWidth, if_neg (by omega)]
    have : Nat.log 256 x = 0 := Nat.log_eq_zero_iff.2 (Or.inl h1)
    simp [this]
  rcases Nat.lt_or_ge x 65536 with h2 | h2
  · rw [slotBytes_case2 x h1 h2, minimalByteWidth, if_neg (by omega)]
    have : Nat.log 256 x = 1 :=
      Nat.log_eq_of_pow_le_of_lt_pow (by norm_num; omega) (by norm_num; omega)
    simp [this]
  rcases Nat.lt_or_ge x 16777216 with h3 | h3
  · rw [slotBytes_case3 x h2 h3, minimalByteWidth, if_neg (by omega)]
    have : Nat.log 256 x = 2 :=
      Nat.log_eq_of_pow_le_of_lt_pow (by norm_num; omega) (by norm_num; omega)
    simp [this]
  · rw [slotBytes_case4 x h3 hx, minimalByteWidth, if_neg (by omega)]
    have : Nat.log 256 x = 3 :=
      Nat.log_eq_of_pow_le_of_lt_pow (by norm_num; omega) (by norm_num; omega)
    simp [this]

/-- `binary.PutUvarint` writes at most `k + 1` bytes for values below
`128 ^ (k + 1)`. -/
lemma putUvarintLoop_length :
    ∀ k x fuel, x < 128 ^ (k + 1) → k + 1 ≤ fuel →
      (putUvarintLoop fuel x).length ≤ k + 1 := by
  intro k
  induction k with
  | zero =>
    intro x fuel hx hf
    match fuel, hf with
    | m + 1, _ =>
      rw [putUvarintLoop, if_pos (by norm_num at hx; omega)]
      simp
  | succ k ih =>
    intro x fuel hx hf
    match fuel, hf with
    | m + 1, hf =>
      by_cases hsm : x < 128
      · rw [putUvarintLoop, if_pos hsm]; simp
      · rw [putUvarintLoop, if_neg hsm]
        simp only [List.length_cons]
        have hdiv : x / 128 < 128 ^ (k + 1) := by
          rw [Nat.div_lt_iff_lt_mul (by norm_num)]
          calc x < 128 ^ (k + 1 + 1) := hx
            _ = 128 ^ (k + 1) * 128 := by ring
        have := ih (x / 128) m hdiv (by omega)
        omega

/-! ## The claims -/

/-- C1: for every finite sequence of uint32 values, writing each value with
`PutU32`, calling `Close`, and then repeatedly calling `GetU32` on the
resulting byte stream yields exactly the original values in order, after
which every further `GetU32` call reports EndOfData. -/
theorem C1_roundtrip (xs : List Nat) (hx : ∀ x ∈ xs, x < 4294967296) :
    ∃ dF : U32GroupVarintDecoder,
      decodeAll (xs.length + 1) newDecoder ((encodeSeq xs).map Except.ok) =
        some (xs, IOErr.eof, dF, []) ∧
      dF.GetU32 [] = some (Except.error IOErr.eof, dF, []) := by
  rw [encodeSeq_eq_encodeList]
  exact decode_encodeList xs.length xs (le_refl _) hx 0 0 0 0

theorem C1_roundtrip_witness :
    ∃ dF : U32GroupVarintDecoder,
      decodeAll ([1, 4294967295, 0, 7, 123456].length + 1) newDecoder
          ((encodeSeq [1, 4294967295, 0, 7, 123456]).map Except.ok) =
        some ([1, 4294967295, 0, 7, 123456], IOErr.eof, dF, []) ∧
      dF.GetU32 [] = some (Except.error IOErr.eof, dF, []) :=
  C1_roundtrip [1, 4294967295, 0, 7, 123456] (by decide)

/-- C2 counterexample: after a successful direct `Flush` of an encoder
holding one buffered value, the buffered count is still 1 (not 0) and an
immediately following flush writes the same 2-byte group again, so the
underlying sink receives the group twice. -/
theorem C2_flush_reset_counterexample :
    ((newEncoder.PutU32 5).1.Flush).1.index = 1 ∧
    (((newEncoder.PutU32 5).1.Flush).1.Flush).2 = 2 ∧
    (((newEncoder.PutU32 5).1.Flush).1.Flush).1.out = [0, 5, 0, 5] := by
  decide

/-- C2 amended: `Flush` itself never changes the buffered count (with an
empty buffer it is a no-op, and after flushing a partial group the values
stay buffered, so a following flush writes them again); the count is reset
to 0 only by the `PutU32` path completing a group of four, so it is 0
exactly after a multiple of four puts. -/
theorem C2_flush_reset_amended :
    (∀ b : U32GroupVarintEncoder, b.Flush.1.index = b.index) ∧
    (∀ b : U32GroupVarintEncoder, b.index = 0 → b.Flush = (b, 0)) ∧
    (∀ xs : List Nat, xs.length % 4 = 0 → (putAll newEncoder xs).index = 0) := by
  refine ⟨?_, ?_, ?_⟩
  · intro b
    by_cases h : b.index = 0 <;> simp [U32GroupVarintEncoder.Flush, h]
  · intro b h
    simp [U32GroupVarintEncoder.Flush, h]
  · intro xs h
    have h2 := putAll_index xs.length xs 0 0 0 0 [] (le_refl _)
    rw [h] at h2
    exact h2

theorem C2_flush_reset_amended_witness :
    (newEncoder.Flush.1.index = newEncoder.index) ∧
    (newEncoder.Flush = (newEncoder, 0)) ∧
    ((putAll newEncoder [1, 2, 3, 4]).index = 0) :=
  ⟨C2_flush_reset_amended.1 newEncoder,
    C2_flush_reset_amended.2.1 newEncoder rfl,
    C2_flush_reset_amended.2.2 [1, 2, 3, 4] (by decide)⟩

/-- C3 counterexample: encoding `[1, 300, 70000, 0]` does not produce the
bytes `10 01 01 2C 01 11 70 00` the claim states (the widths `[1,2,3,1]`
pack to `(0<<6)|(1<<4)|(2<<2)|(0<<0) = 0x18`, not `0x10`), and decoding the
claimed byte sequence does not yield `1, 300, 70000, 0`. -/
theorem C3_concrete_counterexample :
    encodeSeq [1, 300, 70000, 0] ≠
      [0x10, 0x01, 0x01, 0x2C, 0x01, 0x11, 0x70, 0x00] ∧
    (decodeAll 5 newDecoder
        (([0x10, 0x01, 0x01, 0x2C, 0x01, 0x11, 0x70, 0x00] : List Nat).map
          Except.ok)).map (fun r => r.1) ≠ some [1, 300, 70000, 0] := by
  decide

/-- C3 amended: encoding `[1, 300, 70000, 0]` produces the control byte
`0x18` and the wire bytes `18 01 01 2C 01 11 70 00`, and decoding that
sequence yields `1, 300, 70000, 0` and then EndOfData. -/
theorem C3_concrete_amended :
    encodeSeq [1, 300, 70000, 0] =
      [0x18, 0x01, 0x01, 0x2C, 0x01, 0x11, 0x70, 0x00] ∧
    decodeAll 5 newDecoder ((encodeSeq [1, 300, 70000, 0]).map Except.ok) =
      some ([1, 300, 70000, 0], IOErr.eof,
        ⟨[1, 300, 70000, 0], 4, false, 4⟩, []) ∧
    (⟨[1, 300, 70000, 0], 4, false, 4⟩ : U32GroupVarintDecoder).GetU32 [] =
      some (Except.error IOErr.eof, ⟨[1, 300, 70000, 0], 4, false, 4⟩, []) := by
  decide

/-- C4: on a source that ends while slot 0's declared byte is being read
(here the single byte `0x00`, a control byte with nothing after it), the
decoder does not report EndOfData as the claim requires: the first `GetU32`
returns the value 0 with no error, and the next call returns another value
— the `pos == capacity` check is skipped because `pos` has already moved
past `capacity = 0`. -/
theorem C4_k0_divergence :
    U32GroupVarintDecoder.GetU32 newDecoder [Except.ok 0] =
      some (Except.ok 0, ⟨[0, 0, 0, 0], 1, true, 0⟩, []) ∧
    (⟨[0, 0, 0, 0], 1, true, 0⟩ : U32GroupVarintDecoder).GetU32 [] =
      some (Except.ok 0, ⟨[0, 0, 0, 0], 2, true, 0⟩, []) := by
  decide

/-- C5: flushing a partial group of 1-3 values writes exactly `4 - count`
fewer bytes than a full group holding the same leading values and zeros in
the missing slots; the control byte is emitted unmodified (it still
declares width 1 for each missing slot); and decoding the partial wire
output recovers exactly the `count` values followed by EndOfData. -/
theorem C5_partial_group (vs : List Nat) (h1 : 1 ≤ vs.length)
    (h3 : vs.length ≤ 3) (hx : ∀ x ∈ vs, x < 4294967296) :
    (encodeSeq vs).length + (4 - vs.length) =
      (encodeSeq (vs ++ List.replicate (4 - vs.length) 0)).length ∧
    (encodeSeq vs).head? =
      (encodeSeq (vs ++ List.replicate (4 - vs.length) 0)).head? ∧
    (∀ i, vs.length ≤ i → i < 4 →
      declaredSize ((encodeSeq vs).headD 0) i = 1) ∧
    ∃ dF : U32GroupVarintDecoder,
      decodeAll (vs.length + 1) newDecoder ((encodeSeq vs).map Except.ok) =
        some (vs, IOErr.eof, dF, []) ∧
      dF.GetU32 [] = some (Except.error IOErr.eof, dF, []) := by
  match vs, h1, h3, hx with
  | [], h1, _, _ => simp at h1
  | x0 :: x1 :: x2 :: x3 :: t, _, h3, _ =>
    simp at h3
  | [a], _, _, hx =>
    refine ⟨?_, ?_, ?_, ?_⟩
    · rw [encodeSeq_eq_encodeList, encodeSeq_eq_encodeList,
        show ([a] ++ List.replicate (4 - [a].length) 0) = [a, 0, 0, 0] from rfl,
        show encodeList [a] = groupBytes [a] from rfl,
        show encodeList [a, 0, 0, 0] = groupBytes [a, 0, 0, 0] ++ [] from rfl,
        groupBytes_partial1, groupBytes_full]
      simp [slotBytes_zero]
    · rw [encodeSeq_eq_encodeList, encodeSeq_eq_encodeList,
        show ([a] ++ List.replicate (4 - [a].length) 0) = [a, 0, 0, 0] from rfl,
        show encodeList [a] = groupBytes [a] from rfl,
        show encodeList [a, 0, 0, 0] = groupBytes [a, 0, 0, 0] ++ [] from rfl,
        groupBytes_partial1, groupBytes_full]
      simp
    · intro i hi1 hi2
      rw [encodeSeq_eq_encodeList, show encodeList [a] = groupBytes [a] from rfl,
        groupBytes_partial1]
      simp only [List.headD_cons]
      obtain ⟨e0, e1, e2, e3⟩ := declaredSize_controlByte a 0 0 0
      have hi1x : 1 ≤ i := by simpa using hi1
      interval_cases i
      · rw [e1, slotBytes_zero]; rfl
      · rw [e2, slotBytes_zero]; rfl
      · rw [e3, slotBytes_zero]; rfl
    · rw [encodeSeq_eq_encodeList]
      exact decode_encodeList [a].length [a] (le_refl _) hx 0 0 0 0
  | [a, b], _, _, hx =>
    refine ⟨?_, ?_, ?_, ?_⟩
    · rw [encodeSeq_eq_encodeList, encodeSeq_eq_encodeList,
        show ([a, b] ++ List.replicate (4 - [a, b].length) 0) = [a, b, 0, 0] from rfl,
        show encodeList [a, b] = groupBytes [a, b] from rfl,
        show encodeList [a, b, 0, 0] = groupBytes [a, b, 0, 0] ++ [] from rfl,
        groupBytes_partial2, groupBytes_full]
      simp [slotBytes_zero]
      omega
    · rw [encodeSeq_eq_encodeList, encodeSeq_eq_encodeList,
        show ([a, b] ++ List.replicate (4 - [a, b].length) 0) = [a, b, 0, 0] from rfl,
        show encodeList [a, b] = groupBytes [a, b] from rfl,
        show encodeList [a, b, 0, 0] = groupBytes [a, b, 0, 0] ++ [] from rfl,
        groupBytes_partial2, groupBytes_full]
      simp
    · intro i hi1 hi2
      rw [encodeSeq_eq_encodeList, show encodeList [a, b] = groupBytes [a, b] from rfl,
        groupBytes_partial2]
      simp only [List.headD_cons]
      obtain ⟨e0, e1, e2, e3⟩ := declaredSize_controlByte a b 0 0
      have hi1x : 2 ≤ i := by simpa using hi1
      interval_cases i
      · rw [e2, slotBytes_zero]; rfl
      · rw [e3, slotBytes_zero]; rfl
    · rw [encodeSeq_eq_encodeList]
      exact decode_encodeList [a, b].length [a, b] (le_refl _) hx 0 0 0 0
  | [a, b, c], _, _, hx =>
    refine ⟨?_, ?_, ?_, ?_⟩
    · rw [encodeSeq_eq_encodeList, encodeSeq_eq_encodeList,
        show ([a, b, c] ++ List.replicate (4 - [a, b, c].length) 0)
          = [a, b, c, 0] from rfl,
        show encodeList [a, b, c] = groupBytes [a, b, c] from rfl,
        show encodeList [a, b, c, 0] = groupBytes [a, b, c, 0] ++ [] from rfl,
        groupBytes_partial3, groupBytes_full]
      simp [slotBytes_zero]
      omega
    · rw [encodeSeq_eq_encodeList, encodeSeq_eq_encodeList,
        show ([a, b, c] ++ List.replicate (4 - [a, b, c].length) 0)
          = [a, b, c, 0] from rfl,
        show encodeList [a, b, c] = groupBytes [a, b, c] from rfl,
        show encodeList [a, b, c, 0] = groupBytes [a, b, c, 0] ++ [] from rfl,
        groupBytes_partial3, groupBytes_full]
      simp
    · intro i hi1 hi2
      rw [encodeSeq_eq_encodeList,
        show encodeList [a, b, c] = groupBytes [a, b, c] from rfl,
        groupBytes_partial3]
      simp only [List.headD_cons]
      obtain ⟨e0, e1, e2, e3⟩ := declaredSize_controlByte a b c 0
      have hi1x : 3 ≤ i := by simpa using hi1
      interval_cases i
      · rw [e3, slotBytes_zero]; rfl
    · rw [encodeSeq_eq_encodeList]
      exact decode_encodeList [a, b, c].length [a, b, c] (le_refl _) hx 0 0 0 0

theorem C5_partial_group_witness :
    ((encodeSeq [5, 300]).length + (4 - [5, 300].length) =
      (encodeSeq ([5, 300] ++ List.replicate (4 - [5, 300].length) 0)).length) ∧
    ((encodeSeq [5, 300]).head? =
      (encodeSeq ([5, 300] ++ List.replicate (4 - [5, 300].length) 0)).head?) ∧
    (∀ i, [5, 300].length ≤ i → i < 4 →
      declaredSize ((encodeSeq [5, 300]).headD 0) i = 1) ∧
    (∃ dF : U32GroupVarintDecoder,
      decodeAll ([5, 300].length + 1) newDecoder
          ((encodeSeq [5, 300]).map Except.ok) =
        some ([5, 300], IOErr.eof, dF, []) ∧
      dF.GetU32 [] = some (Except.error IOErr.eof, dF, [])) :=
  C5_partial_group [5, 300] (by decide) (by decide) (by decide)

/-- C6: in every emitted control byte the 2-bit field for slot `i` sits at
bit positions `(7-2i)..(6-2i)` (shift `(3-i)*2`), stores the slot's byte
width minus 1, and the decoder's declared size reads the same field at the
same position and adds 1 back. -/
theorem C6_control_layout (vs : List Nat) (h4 : vs.length = 4) (i : Nat)
    (hi : i < 4) :
    (controlByte vs >>> ((3 - i) * 2)) &&& 3 = (slotBytes (vs.getD i 0)).length - 1 ∧
    declaredSize (controlByte vs) i = ((slotBytes (vs.getD i 0)).length - 1) + 1 ∧
    declaredSize (controlByte vs) i = (slotBytes (vs.getD i 0)).length := by
  match vs, h4 with
  | [a, b, c, d], _ =>
    obtain ⟨e0, e1, e2, e3⟩ := declaredSize_controlByte a b c d
    have wa := slotBytes_length_pos a
    have wb := slotBytes_length_pos b
    have wc := slotBytes_length_pos c
    have wd := slotBytes_length_pos d
    interval_cases i
    · have e0x : ((controlByte [a, b, c, d] >>> 6) &&& 3) + 1 = (slotBytes a).length := e0
      refine ⟨?_, ?_, ?_⟩
      · show (controlByte [a, b, c, d] >>> 6) &&& 3 = (slotBytes a).length - 1
        omega
      · show ((controlByte [a, b, c, d] >>> 6) &&& 3) + 1 = ((slotBytes a).length - 1) + 1
        omega
      · exact e0
    · have e1x : ((controlByte [a, b, c, d] >>> 4) &&& 3) + 1 = (slotBytes b).length := e1
      refine ⟨?_, ?_, ?_⟩
      · show (controlByte [a, b, c, d] >>> 4) &&& 3 = (slotBytes b).length - 1
        omega
      · show ((controlByte [a, b, c, d] >>> 4) &&& 3) + 1 = ((slotBytes b).length - 1) + 1
        omega
      · exact e1
    · have e2x : ((controlByte [a, b, c, d] >>> 2) &&& 3) + 1 = (slotBytes c).length := e2
      refine ⟨?_, ?_, ?_⟩
      · show (controlByte [a, b, c, d] >>> 2) &&& 3 = (slotBytes c).length - 1
        omega
      · show ((controlByte [a, b, c, d] >>> 2) &&& 3) + 1 = ((slotBytes c).length - 1) + 1
        omega
      · exact e2
    · have e3x : ((controlByte [a, b, c, d] >>> 0) &&& 3) + 1 = (slotBytes d).length := e3
      refine ⟨?_, ?_, ?_⟩
      · show (controlByte [a, b, c, d] >>> 0) &&& 3 = (slotBytes d).length - 1
        omega
      · show ((controlByte [a, b, c, d] >>> 0) &&& 3) + 1 = ((slotBytes d).length - 1) + 1
        omega
      · exact e3

theorem C6_control_layout_witness :
    (controlByte [1, 300, 70000, 4294967295] >>> ((3 - 2) * 2)) &&& 3 =
      (slotBytes ([1, 300, 70000, 4294967295].getD 2 0)).length - 1 ∧
    declaredSize (controlByte [1, 300, 70000, 4294967295]) 2 =
      (((slotBytes ([1, 300, 70000, 4294967295].getD 2 0)).length - 1)) + 1 ∧
    declaredSize (controlByte [1, 300, 70000, 4294967295]) 2 =
      (slotBytes ([1, 300, 70000, 4294967295].getD 2 0)).length :=
  C6_control_layout [1, 300, 70000, 4294967295] (by decide) 2 (by decide)

/-- C7: the encoder serialises every uint32 value in its minimal big-endian
byte width (always at least 1, with 0 taking exactly 1 byte); consequently
`[0,0,0,0]` encodes to exactly 5 bytes and `[0xFFFFFFFF,0,0,0]` to exactly
8 bytes. -/
theorem C7_minimal_width :
    (∀ x : Nat, x < 4294967296 → (slotBytes x).length = minimalByteWidth x) ∧
    (∀ x : Nat, 1 ≤ minimalByteWidth x) ∧
    minimalByteWidth 0 = 1 ∧
    (encodeSeq [0, 0, 0, 0]).length = 5 ∧
    (encodeSeq [4294967295, 0, 0, 0]).length = 8 := by
  refine ⟨slotBytes_length_eq_minimalByteWidth, ?_, rfl, by decide, by decide⟩
  intro x
  by_cases h : x = 0 <;> simp [minimalByteWidth, h]

theorem C7_minimal_width_witness :
    (slotBytes 70000).length = minimalByteWidth 70000 :=
  C7_minimal_width.1 70000 (by decide)

/-- C8: a non-EOF read error is propagated by `GetU32` as that same error,
whether it strikes at the control byte or while reading any declared slot
byte; end-of-data hit before any control byte can be read at a clean group
boundary is reported as plain EndOfData. -/
theorem C8_error_propagation :
    (∀ (d : U32GroupVarintDecoder) (s : Source), d.pos = d.capacity →
      d.finished = false →
      d.GetU32 (Except.error IOErr.eof :: s) =
        some (Except.error IOErr.eof, d, s)) ∧
    (∀ d : U32GroupVarintDecoder, d.pos = d.capacity → d.finished = false →
      d.GetU32 [] = some (Except.error IOErr.eof, d, [])) ∧
    (∀ (d : U32GroupVarintDecoder) (c : Nat) (s : Source),
      d.pos = d.capacity → d.finished = false →
      d.GetU32 (Except.error (IOErr.other c) :: s) =
        some (Except.error (IOErr.other c), d, s)) ∧
    (∀ (d : U32GroupVarintDecoder) (ctrl : Nat) (pre : List Nat) (c : Nat)
      (s : Source), d.pos = d.capacity → d.finished = false →
      pre.length < totalDeclared ctrl 4 →
      ∃ d2, d.GetU32
          (Except.ok ctrl :: (pre.map Except.ok ++
            Except.error (IOErr.other c) :: s)) =
        some (Except.error (IOErr.other c), d2, s)) := by
  refine ⟨?_, ?_, ?_, ?_⟩
  · intro d s h1 h2
    simp [U32GroupVarintDecoder.GetU32, U32GroupVarintDecoder.getGroup,
      readByte, h1, h2]
  · intro d h1 h2
    simp [U32GroupVarintDecoder.GetU32, U32GroupVarintDecoder.getGroup,
      readByte, h1, h2]
  · intro d c s h1 h2
    simp [U32GroupVarintDecoder.GetU32, U32GroupVarintDecoder.getGroup,
      readByte, h1, h2]
  · intro d ctrl pre c s h1 h2 hlt
    obtain ⟨d2, hd2⟩ := getGroupAux_fail ctrl 4 d pre c s h2 hlt
    refine ⟨d2, ?_⟩
    simp [U32GroupVarintDecoder.GetU32, U32GroupVarintDecoder.getGroup,
      readByte, h1, h2, hd2]

theorem C8_error_propagation_witness :
    (newDecoder.GetU32 [Except.error IOErr.eof] =
      some (Except.error IOErr.eof, newDecoder, [])) ∧
    (newDecoder.GetU32 [] = some (Except.error IOErr.eof, newDecoder, [])) ∧
    (newDecoder.GetU32 [Except.error (IOErr.other 7)] =
      some (Except.error (IOErr.other 7), newDecoder, [])) ∧
    (∃ d2, newDecoder.GetU32
        (Except.ok 0 :: (([] : List Nat).map Except.ok ++
          Except.error (IOErr.other 7) :: [])) =
      some (Except.error (IOErr.other 7), d2, [])) :=
  ⟨C8_error_propagation.1 newDecoder [] rfl rfl,
    C8_error_propagation.2.1 newDecoder rfl rfl,
    C8_error_propagation.2.2.1 newDecoder 7 [] rfl rfl,
    C8_error_propagation.2.2.2 newDecoder 0 [] 7 [] rfl rfl (by decide)⟩

/-- C9: a full group's wire size is 1 plus the sum of the four slots' byte
widths, which always lies between 5 and 17 inclusive — exactly the bound
the encoder's 17-byte `temp` buffer is sized for. -/
theorem C9_full_group_size (a b c d : Nat) (ha : a < 4294967296)
    (hb : b < 4294967296) (hc : c < 4294967296) (hd : d < 4294967296) :
    (encodeSeq [a, b, c, d]).length =
      1 + ((slotBytes a).length + (slotBytes b).length +
        (slotBytes c).length + (slotBytes d).length) ∧
    5 ≤ (encodeSeq [a, b, c, d]).length ∧
    (encodeSeq [a, b, c, d]).length ≤ 17 := by
  rw [encodeSeq_eq_encodeList,
    show encodeList [a, b, c, d] = groupBytes [a, b, c, d] ++ [] from rfl,
    groupBytes_full]
  have p1 := slotBytes_length_pos a
  have p2 := slotBytes_length_pos b
  have p3 := slotBytes_length_pos c
  have p4 := slotBytes_length_pos d
  have q1 := slotBytes_length_le a
  have q2 := slotBytes_length_le b
  have q3 := slotBytes_length_le c
  have q4 := slotBytes_length_le d
  simp only [List.append_nil, List.length_cons, List.length_append]
  omega

theorem C9_full_group_size_witness :
    (encodeSeq [1, 300, 70000, 4294967295]).length =
      1 + ((slotBytes 1).length + (slotBytes 300).length +
        (slotBytes 70000).length + (slotBytes 4294967295).length) ∧
    5 ≤ (encodeSeq [1, 300, 70000, 4294967295]).length ∧
    (encodeSeq [1, 300, 70000, 4294967295]).length ≤ 17 :=
  C9_full_group_size 1 300 70000 4294967295 (by decide) (by decide) (by decide)
    (by decide)

/-- C10: for every uint32 value, `Base128Encoder.PutU32` writes exactly the
bytes `Base128Encoder.PutU64` writes for the same (zero-extended) value:
the 32-bit variant never overflows its 5-byte buffer on that range, so the
two codecs are wire-compatible. -/
theorem C10_base128_compat (x : Nat) (hx : x < 4294967296) :
    Base128Encoder.PutU32 x = Base128Encoder.PutU64 x := by
  have h5 : (uvarint x).length ≤ 5 :=
    putUvarintLoop_length 4 x 11 (by norm_num; omega) (by norm_num)
  have h10 : (uvarint x).length ≤ 10 := by omega
  simp [Base128Encoder.PutU32, Base128Encoder.PutU64, h5, h10]

theorem C10_base128_compat_witness :
    Base128Encoder.PutU32 4294967295 = Base128Encoder.PutU64 4294967295 :=
  C10_base128_compat 4294967295 (by decide)

end Govarint
